import Mathlib

/-
Verification of the Agent-D quiz pipeline of `workflow.py` (the movie-quiz
Streamlit app).  The file shallowly embeds the quiz-JSON extraction
(`re.search` over the raw model output), the schema handling and rendering
loop, the answer-recording dictionary updates, and the grading loop of the
"Submit Quiz" handler.  Python values decoded by `json.loads` are modelled by
the inductive `Json`; Python operations that would raise an uncaught
exception on a given value are modelled by `Option`, with `none` standing for
the raised exception.  The plain-text quiz dialect ("Dialect T") of the
sibling variants is not present in this source tree and is modelled from the
specification where a claim needs it.
-/

set_option autoImplicit false

namespace Workflow

/-- A value decoded from JSON by `json.loads`.  JSON numbers are modelled as
integers only (none of the verified behaviour touches fractional numbers). -/
inductive Json where
  | null
  | bool (b : Bool)
  | num (n : Int)
  | str (s : String)
  | arr (elems : List Json)
  | obj (fields : List (String × Json))

/-- Python `dict.get` lookup over the field list of a decoded JSON object.
`json.loads` resolves duplicate keys to the last occurrence, hence the
last-binding-wins search. -/
def jLookup (kvs : List (String × Json)) (k : String) : Option Json :=
  ((kvs.reverse.find? (fun p => p.1 == k))).map (fun p => p.2)

/-- The characters Python `str.strip()` removes (ASCII whitespace; the
non-ASCII Unicode whitespace Python also strips is outside the model). -/
def isPySpace (c : Char) : Bool :=
  c == ' ' || c == '\t' || c == '\n' || c == '\r' || c == '\x0b' || c == '\x0c'

/-- Python `str.strip()` on ASCII input. -/
def pyStrip (s : String) : String :=
  String.mk (((s.data.dropWhile isPySpace).reverse.dropWhile isPySpace).reverse)

/-- Python `str.upper()` on ASCII input. -/
def pyUpper (s : String) : String :=
  String.mk (s.data.map Char.toUpper)

/-- Python `str(v)` for a `json.loads` value, as used inside f-strings.
Total on scalars; the `repr`-style rendering of lists and dicts is not
modelled (`none`). -/
def pyStr : Json → Option String
  | Json.null => some "None"
  | Json.bool true => some "True"
  | Json.bool false => some "False"
  | Json.num n => some (toString n)
  | Json.str s => some s
  | Json.arr _ => none
  | Json.obj _ => none

/-- The Streamlit session dictionary `st.session_state.user_answers`:
question index ↦ chosen label.  Keys are unique (it is a Python dict). -/
abbrev AnswerMap := List (Nat × String)

/-- `user_answers.get(i, ...)` without the default: the recorded label, if
any. -/
def amGet (m : AnswerMap) (i : Nat) : Option String :=
  (List.find? (fun p => p.1 == i) m).map (fun p => p.2)

/-- `user_answers[i] = v`: in-place update of an existing key, append
otherwise (Python dict assignment preserves key order). -/
def amSet (m : AnswerMap) (i : Nat) (v : String) : AnswerMap :=
  if List.any m (fun p => p.1 == i) then
    List.map (fun p => if p.1 == i then (i, v) else p) m
  else
    m ++ [(i, v)]

/-- Index of the first character satisfying `p`, if any. -/
def idxOfFirst (p : Char → Bool) : List Char → Option Nat
  | [] => none
  | c :: cs => if p c then some 0 else (idxOfFirst p cs).map (fun n => n + 1)

/-- Index of the last character satisfying `p`, if any. -/
def idxOfLast (p : Char → Bool) : List Char → Option Nat
  | [] => none
  | c :: cs =>
    match idxOfLast p cs with
    | some j => some (j + 1)
    | none => if p c then some 0 else none

/-- `re.search(r"\x7b.*\x7d", raw_quiz, re.DOTALL).group(0)`: the regex is
greedy, so a successful match runs from the first brace-opening character
that has a brace-closing character after it — which, when a match exists, is
the first brace-opening character overall that precedes the last
brace-closing character — to that last brace-closing character. -/
def braceSpan (s : List Char) : Option (List Char) :=
  match idxOfFirst (fun c => c == '{') s, idxOfLast (fun c => c == '}') s with
  | some i, some j => if i < j then some ((s.drop i).take (j - i + 1)) else none
  | _, _ => none

/-- The two terminal failure sites of the quiz-JSON stage: `noJsonFound` is
the `st.error("AI returned invalid quiz JSON...")`/`st.stop()` branch taken
when the regex finds no span; `malformedJson` is the
`st.error("Failed to parse quiz JSON...")`/`st.stop()` branch taken when the
`try` block around `json.loads` and the subsequent `.get` raises. -/
inductive JErr where
  | noJsonFound
  | malformedJson

/-- `quiz_data.get("questions", [])`, which raises (is caught by the same
`try` block as `json.loads`) when `quiz_data` is not a dict. -/
def getQuestionsVal (d : Json) : Option Json :=
  match d with
  | Json.obj kvs => some ((jLookup kvs "questions").getD (Json.arr []))
  | _ => none

/-- The quiz-JSON stage of Agent D: regex extraction of the brace span,
`json.loads` on it (modelled by the parameter `jp`, standing for the Python
standard-library JSON parser: `none` exactly when `json.loads` raises), then
the `questions` field with its `[]` default.  On success it returns the
value bound to `questions`. -/
def djQuestions (jp : List Char → Option Json) (raw : List Char) :
    Except JErr Json :=
  match braceSpan raw with
  | none => Except.error JErr.noJsonFound
  | some span =>
    match jp span with
    | none => Except.error JErr.malformedJson
    | some d =>
      match getQuestionsVal d with
      | none => Except.error JErr.malformedJson
      | some qv => Except.ok qv

/-- The warning test `not isinstance(questions, list) or len(questions) != 5`
(the short-circuit means `len` is only taken on lists).  The warning does not
stop the run. -/
def warnBadShape (qv : Json) : Bool :=
  match qv with
  | Json.arr xs => decide (xs.length ≠ 5)
  | _ => true

/-- Python iteration as performed by `enumerate(questions)`: lists yield
their elements, strings their characters, dicts their keys; other values
raise `TypeError` (modelled as `none`). -/
def enumList (j : Json) : Option (List Json) :=
  match j with
  | Json.arr xs => some xs
  | Json.str s => some (s.data.map (fun c => Json.str (String.mk [c])))
  | Json.obj kvs => some (kvs.map (fun p => Json.str p.1))
  | _ => none

/-- The fixed label list `labels = ["A", "B", "C", "D"]`. -/
def labels : List String := ["A", "B", "C", "D"]

/-- The choice list after the `while len(choices) < 4: choices.append("N/A")`
padding loop. -/
def padChoices (cs : List Json) : List Json :=
  cs ++ List.replicate (4 - cs.length) (Json.str "N/A")

/-- One entry of the `display_options` comprehension:
`f"{labels[idx]}) {choices[idx]}"`. -/
def displayOpt (padded : List Json) (idx : Nat) : Option String :=
  (pyStr (padded.getD idx Json.null)).map
    (fun t => labels.getD idx "" ++ ") " ++ t)

/-- `display_options = [f"{labels[idx]}) {choices[idx]}" for idx in range(4)]`
(`range(4)` is literal in the source, hence the four explicit entries). -/
def renderOpts (padded : List Json) : Option (List String) :=
  match displayOpt padded 0, displayOpt padded 1,
      displayOpt padded 2, displayOpt padded 3 with
  | some a, some b, some c, some d => some [a, b, c, d]
  | _, _, _, _ => none

/-- What the rendering loop shows for one question: the markdown question
line text, the four `display_options` strings, and the `options=labels`
argument actually passed to `st.radio` (the selectable values). -/
structure RenderedQ where
  qText : String
  displayOptions : List String
  radioOptions : List String
  deriving DecidableEq, Repr

/-- `list(choices)` coercion applied when `choices` is not already a list,
preceded by the `q.get("choices", [])` default.  Strings and dicts are
iterable (characters / keys); other non-list values raise `TypeError`. -/
def choicesList (v : Option Json) : Option (List Json) :=
  match v with
  | none => some []
  | some (Json.arr xs) => some xs
  | some (Json.str s) => some (s.data.map (fun c => Json.str (String.mk [c])))
  | some (Json.obj kvs) => some (kvs.map (fun p => Json.str p.1))
  | some _ => none

/-- One iteration of the rendering loop (`for i, q in enumerate(questions)`),
lines 223-236: `q.get("question", f"Question {i+1}")` (displayed through an
f-string), the choice default/coercion/padding, the `display_options`
comprehension, and the `st.radio(..., options=labels, ...)` call.  `none`
models an uncaught Python exception (`q` not a dict, `choices` not
iterable, or a container value rendered by the unmodelled `repr`). -/
def renderQuestion (i : Nat) (q : Json) : Option RenderedQ :=
  match q with
  | Json.obj kvs => do
    let qText ←
      match jLookup kvs "question" with
      | none => some ("Question " ++ toString (i + 1))
      | some v => pyStr v
    let cs ← choicesList (jLookup kvs "choices")
    let opts ← renderOpts (padChoices cs)
    some ⟨qText, opts, labels⟩
  | _ => none

/-- The full rendering loop, carrying the running index `i`. -/
def renderAllFrom (i : Nat) : List Json → Option (List RenderedQ)
  | [] => some []
  | q :: qs => do
    let r ← renderQuestion i q
    let rs ← renderAllFrom (i + 1) qs
    some (r :: rs)

/-- The whole Agent-D parse-and-render path on the raw model output: the
quiz-JSON stage, then iteration over `questions` and the per-question
rendering.  The outer `Except` carries the two `st.stop()` error exits; the
inner `Option` models an uncaught exception in the rendering loop. -/
def runDialectJ (jp : List Char → Option Json) (raw : List Char) :
    Except JErr (Option (List RenderedQ)) :=
  (djQuestions jp raw).map (fun qv => (enumList qv).bind (renderAllFrom 0))

/-- A canonical well-typed question object, as the quiz prompt requests it
(string question, string choices, string answer, string explanation). -/
def mkQ (qt : String) (cs : List String) (a e : String) : Json :=
  Json.obj [("question", Json.str qt), ("choices", Json.arr (cs.map Json.str)),
    ("answer", Json.str a), ("explanation", Json.str e)]

/-- One row of the results display: the outcome of one iteration of the
grading loop. -/
structure QResult where
  isCorrect : Bool
  userAns : String
  correctAns : String
  explanation : String
  deriving DecidableEq, Repr

/-- The grading summary: the per-question rows, the `score` accumulator at
the end of the loop, and `total = len(questions)`. -/
structure ScoreReport where
  perQuestion : List QResult
  score : Nat
  total : Nat
  deriving DecidableEq, Repr

/-- One iteration of the grading loop (lines 242-252):
`correct = q.get("answer", "").strip().upper()`,
`user_ans = st.session_state.user_answers.get(i, "")`,
`explanation = q.get("explanation", "No explanation provided.")` (displayed
through an f-string), and the `user_ans == correct` comparison.  `none`
models an uncaught exception (`q` not a dict, `.strip()` on a non-string
answer, or a container explanation rendered by the unmodelled `repr`). -/
def gradeQuestion (m : AnswerMap) (i : Nat) (q : Json) : Option QResult :=
  match q with
  | Json.obj kvs => do
    let rawAns ←
      match jLookup kvs "answer" with
      | none => some ""
      | some (Json.str s) => some s
      | some _ => none
    let correct := pyUpper (pyStrip rawAns)
    let user := (amGet m i).getD ""
    let expl ← pyStr ((jLookup kvs "explanation").getD
      (Json.str "No explanation provided."))
    some ⟨user == correct, user, correct, expl⟩
  | _ => none

/-- The grading loop over all questions, carrying the running index. -/
def gradeAll (m : AnswerMap) (i : Nat) : List Json → Option (List QResult)
  | [] => some []
  | q :: qs => do
    let r ← gradeQuestion m i q
    let rs ← gradeAll m (i + 1) qs
    some (r :: rs)

/-- The "Submit Quiz" handler (lines 238-253): grades every question against
the current `user_answers`, accumulating `score` (the number of correct
rows) and reporting `total = len(questions)`. -/
def grade (qs : List Json) (m : AnswerMap) : Option ScoreReport :=
  (gradeAll m 0 qs).map
    (fun rs => ⟨rs, (rs.filter (fun r => r.isCorrect)).length, qs.length⟩)

/-- The answer-recording effect of one script run: for each rendered
question index `i`, `st.session_state.user_answers[i] = choice_label`
(line 236), with `sel i` the label currently selected in the radio for
question `i`. -/
def recordAnswers (n : Nat) (sel : Nat → String) (m : AnswerMap) : AnswerMap :=
  (List.range n).foldl (fun acc i => amSet acc i (sel i)) m

/-- The observable outcome of one script rerun of the quiz section:
the updated answer dictionary, and the grading report when the
"Submit Quiz" button was pressed on that run (`none` = not pressed; the
inner `Option` is the grading loop's own exception channel). -/
structure RerunOut where
  answers : AnswerMap
  report : Option (Option ScoreReport)
  deriving Repr

/-- One Streamlit rerun of the quiz section, given the parsed `questions`,
the current radio selections and whether "Submit Quiz" was pressed: the
per-question loop stores every selection into `user_answers`, then the
submit handler (if triggered) grades against the updated dictionary.  The
display-only parts of the rendering loop are elided here. -/
def rerun (qs : List Json) (sel : Nat → String) (pressed : Bool)
    (m : AnswerMap) : RerunOut :=
  let m2 := recordAnswers qs.length sel m
  ⟨m2, if pressed then some (grade qs m2) else none⟩

/-- Modelled from the spec: splitting a character list on a separator
character (the Dialect-T parser is not in this source tree, so its text
handling is modelled with structurally recursive, kernel-computable
definitions). -/
def splitChar (sep : Char) : List Char → List (List Char)
  | [] => [[]]
  | c :: cs =>
    match splitChar sep cs with
    | [] => [[c]]
    | l :: ls => if c == sep then [] :: l :: ls else (c :: l) :: ls

/-- Modelled from the spec: grouping lines into blocks at blank lines —
blocks are "separated by a blank line". -/
def splitOnEmpty : List (List Char) → List (List (List Char))
  | [] => [[]]
  | l :: rest =>
    match splitOnEmpty rest with
    | [] => [[l]]
    | b :: bs => if l.isEmpty then [] :: b :: bs else (l :: b) :: bs

/-- The character-list version of `pyStrip`. -/
def pyStripChars (l : List Char) : List Char :=
  ((l.dropWhile isPySpace).reverse.dropWhile isPySpace).reverse

/-- Whether `l` begins with the marker `pre`. -/
def startsWithL (pre l : List Char) : Bool :=
  l.take pre.length == pre

/-- Modelled from the spec: everything after the first `:` of a line,
trimmed; `none` when the line has no `:`. -/
def afterFirstColonL : List Char → Option (List Char)
  | [] => none
  | c :: cs => if c == ':' then some (pyStripChars cs) else afterFirstColonL cs

/-- Modelled from the spec: the trimmed lines of one candidate Dialect-T
block. -/
def blockLines (b : List (List Char)) : List (List Char) :=
  b.map pyStripChars

/-- Modelled from the spec: one parsed Dialect-T quiz item; option text
keeps its leading label prefix. -/
structure TItem where
  question : String
  options : List String
  answer : String
  explanation : String
  deriving DecidableEq, Repr

/-- Modelled from the spec: the Dialect-T failure kind. -/
inductive TErr where
  | noQuestionsParsed

/-- Modelled from the spec: the four fixed option-line markers of
Dialect T. -/
def optStarts : List (List Char) :=
  ["A)".data, "B)".data, "C)".data, "D)".data]

/-- Modelled from the spec: the per-block Dialect-T parse.  The question is
what follows the first `:` on the line beginning with `Q`; option lines
begin with one of the four fixed markers and are stored with their prefix;
`Answer:` and `Explanation:` are split on the first `:` and trimmed.  A
block lacking a question, at least one option, or an answer yields `none`
(it is dropped). -/
def parseBlockT (b : List (List Char)) : Option TItem :=
  let ls := blockLines b
  let q := (ls.find? (fun l => startsWithL "Q".data l)).bind afterFirstColonL
  let opts := ls.filter (fun l => optStarts.any (fun p => startsWithL p l))
  let a := (ls.find? (fun l => startsWithL "Answer".data l)).bind
    afterFirstColonL
  let e := ((ls.find? (fun l => startsWithL "Explanation".data l)).bind
    afterFirstColonL).getD []
  match q, a with
  | some qv, some av =>
    if opts.isEmpty then none
    else some ⟨String.mk qv, opts.map String.mk, String.mk av, String.mk e⟩
  | _, _ => none

/-- Modelled from the spec: the whole Dialect-T parse — split the raw text
into lines and group them into blank-line-separated blocks, parse each
block, silently drop the malformed ones, and fail with `noQuestionsParsed`
exactly when no item remains. -/
def parseDialectT (raw : String) : Except TErr (List TItem) :=
  let items := (splitOnEmpty (splitChar '\n' raw.data)).filterMap parseBlockT
  if items.isEmpty then Except.error TErr.noQuestionsParsed
  else Except.ok items

/-! Helper lemmas about the answer dictionary. -/

theorem amGet_cons (p : Nat × String) (m : AnswerMap) (j : Nat) :
    amGet (p :: m) j = if p.1 == j then some p.2 else amGet m j := by
  rcases h : (p.1 == j) with _ | _ <;> simp [amGet, List.find?, h]

theorem amGet_map_self (m : AnswerMap) (i : Nat) (v : String)
    (h : List.any m (fun p => p.1 == i) = true) :
    amGet (List.map (fun p => if p.1 == i then (i, v) else p) m) i
      = some v := by
  induction m with
  | nil => simp at h
  | cons p m ih =>
    rw [List.map_cons, amGet_cons]
    rcases hp : (p.1 == i) with _ | _
    · have hm : List.any m (fun p => p.1 == i) = true := by
        simpa [hp] using h
      simpa [hp] using ih hm
    · simp

theorem amGet_append_self (m : AnswerMap) (i : Nat) (v : String)
    (h : List.any m (fun p => p.1 == i) = false) :
    amGet (m ++ [(i, v)]) i = some v := by
  induction m with
  | nil => rw [List.nil_append, amGet_cons, if_pos (by simp)]
  | cons p m ih =>
    rw [List.any_cons] at h
    rcases hp : (p.1 == i) with _ | _
    · rw [hp] at h
      rw [List.cons_append, amGet_cons, if_neg (by simp [hp])]
      exact ih (by simpa using h)
    · rw [hp] at h
      simp at h

theorem amGet_amSet_self (m : AnswerMap) (i : Nat) (v : String) :
    amGet (amSet m i v) i = some v := by
  unfold amSet
  by_cases h : List.any m (fun p => p.1 == i) = true
  · rw [if_pos h]
    exact amGet_map_self m i v h
  · rw [if_neg h]
    refine amGet_append_self m i v ?_
    rw [Bool.not_eq_true] at h
    exact h

theorem amGet_map_ne (m : AnswerMap) (i j : Nat) (v : String) (hne : j ≠ i) :
    amGet (List.map (fun p => if p.1 == i then (i, v) else p) m) j
      = amGet m j := by
  have hij : (i == j) = false := by
    rcases hq : (i == j) with _ | _
    · rfl
    · exact absurd (by simpa using hq : i = j) (fun hc => hne hc.symm)
  induction m with
  | nil => rfl
  | cons p m ih =>
    rw [List.map_cons, amGet_cons, amGet_cons]
    rcases hp : (p.1 == i) with _ | _
    · rcases hj : (p.1 == j) with _ | _
      · simpa [hp, hj] using ih
      · simp [hp, hj]
    · have hpi : p.1 = i := by simpa using hp
      simpa [hp, hpi, hij] using ih

theorem amGet_append_ne (m : AnswerMap) (i j : Nat) (v : String)
    (hne : j ≠ i) :
    amGet (m ++ [(i, v)]) j = amGet m j := by
  have hij : (i == j) = false := by
    rcases hq : (i == j) with _ | _
    · rfl
    · exact absurd (by simpa using hq : i = j) (fun hc => hne hc.symm)
  induction m with
  | nil =>
    rw [List.nil_append, amGet_cons]
    simp [hij]
  | cons p m ih =>
    rw [List.cons_append, amGet_cons, amGet_cons]
    rcases hj : (p.1 == j) with _ | _
    · simpa [hj] using ih
    · simp [hj]

theorem amGet_amSet_ne (m : AnswerMap) (i j : Nat) (v : String)
    (hne : j ≠ i) :
    amGet (amSet m i v) j = amGet m j := by
  unfold amSet
  by_cases h : List.any m (fun p => p.1 == i) = true
  · rw [if_pos h]
    exact amGet_map_ne m i j v hne
  · rw [if_neg h]
    exact amGet_append_ne m i j v hne

theorem amGet_recordAnswers (n : Nat) (sel : Nat → String) (m : AnswerMap)
    (j : Nat) :
    amGet (recordAnswers n sel m) j =
      if j < n then some (sel j) else amGet m j := by
  induction n with
  | zero => simp [recordAnswers]
  | succ n ih =>
    have hstep : recordAnswers (n + 1) sel m =
        amSet (recordAnswers n sel m) n (sel n) := by
      simp [recordAnswers, List.range_succ]
    rw [hstep]
    by_cases hj : j = n
    · subst hj
      rw [amGet_amSet_self, if_pos (Nat.lt_succ_self j)]
    · rw [amGet_amSet_ne _ _ _ _ hj, ih]
      by_cases hlt : j < n
      · rw [if_pos hlt, if_pos (Nat.lt_succ_of_lt hlt)]
      · rw [if_neg hlt, if_neg (by omega)]

theorem gradeQuestion_ext (m1 m2 : AnswerMap) (i : Nat) (q : Json)
    (h : ∀ k, amGet m1 k = amGet m2 k) :
    gradeQuestion m1 i q = gradeQuestion m2 i q := by
  cases q with
  | obj kvs => simp only [gradeQuestion, h i]
  | null => rfl
  | bool b => rfl
  | num n => rfl
  | str s => rfl
  | arr xs => rfl

theorem gradeAll_ext (m1 m2 : AnswerMap) (i : Nat) (qs : List Json)
    (h : ∀ k, amGet m1 k = amGet m2 k) :
    gradeAll m1 i qs = gradeAll m2 i qs := by
  induction qs generalizing i with
  | nil => rfl
  | cons q qs ih => simp only [gradeAll, gradeQuestion_ext m1 m2 i q h, ih]

theorem grade_ext (m1 m2 : AnswerMap) (qs : List Json)
    (h : ∀ k, amGet m1 k = amGet m2 k) :
    grade qs m1 = grade qs m2 := by
  simp only [grade, gradeAll_ext m1 m2 0 qs h]

/-- C7: grading is a pure function of the quiz and the recorded answers, so
pressing "Submit Quiz" a second time with the same selections reruns the
script to the same report: the second submission is not an error and yields
an identical `ScoreReport` (same per-question rows, score and total). -/
theorem submit_twice_same_report (qs : List Json) (sel : Nat → String)
    (m : AnswerMap) :
    (rerun qs sel true ((rerun qs sel true m).answers)).report
        = (rerun qs sel true m).report ∧
      ∃ g, (rerun qs sel true m).report = some g := by
  refine ⟨?_, ⟨grade qs (recordAnswers qs.length sel m), rfl⟩⟩
  show some (grade qs (recordAnswers qs.length sel
      (recordAnswers qs.length sel m))) = some (grade qs (recordAnswers qs.length sel m))
  refine congrArg some (grade_ext _ _ qs fun k => ?_)
  by_cases hk : k < qs.length
  · rw [amGet_recordAnswers, if_pos hk, amGet_recordAnswers, if_pos hk]
  · rw [amGet_recordAnswers, if_neg hk]

/-- C6 (amended): the code keeps no submitted flag; the answer-recording
statement `st.session_state.user_answers[i] = choice_label` runs on every
script rerun and always upserts, both before and after a run on which
"Submit Quiz" was pressed.  Post-submission updates are neither rejected
nor ignored, and the rerun that records them shows no report. -/
theorem record_answer_always_upserts (qs : List Json) (sel sel2 : Nat → String)
    (m : AnswerMap) (i : Nat) (hi : i < qs.length) :
    amGet (rerun qs sel true m).answers i = some (sel i) ∧
      amGet (rerun qs sel2 false
        (rerun qs sel true m).answers).answers i = some (sel2 i) ∧
      (rerun qs sel2 false (rerun qs sel true m).answers).report = none := by
  refine ⟨?_, ?_, rfl⟩
  · show amGet (recordAnswers qs.length sel m) i = some (sel i)
    rw [amGet_recordAnswers, if_pos hi]
  · show amGet (recordAnswers qs.length sel2 _) i = some (sel2 i)
    rw [amGet_recordAnswers, if_pos hi]

/-- C6 witness: concrete instance of `record_answer_always_upserts`. -/
theorem record_answer_always_upserts_witness :
    amGet (rerun [Json.obj []] (fun _ => "A") true []).answers 0 = some "A" ∧
      amGet (rerun [Json.obj []] (fun _ => "B") false
        (rerun [Json.obj []] (fun _ => "A") true []).answers).answers 0
          = some "B" ∧
      (rerun [Json.obj []] (fun _ => "B") false
        (rerun [Json.obj []] (fun _ => "A") true []).answers).report = none :=
  record_answer_always_upserts [Json.obj []] (fun _ => "A") (fun _ => "B")
    [] 0 (by decide)

/-- C6 counterexample: after a rerun on which "Submit Quiz" was pressed (a
submission), a later rerun with a different radio selection still changes
the stored answer for question 0 from "A" to "B" — recording is neither
rejected with an error nor ignored, so the answers mapping does not stay
unchanged after submission. -/
theorem record_after_submit_changes_answers :
    amGet (rerun [Json.obj []] (fun _ => "A") true []).answers 0 = some "A" ∧
      amGet (rerun [Json.obj []] (fun _ => "B") false
        (rerun [Json.obj []] (fun _ => "A") true []).answers).answers 0
          = some "B" :=
  ⟨rfl, rfl⟩

/-! Helper lemmas about the grading loop. -/

theorem gradeQuestion_eq_some (m : AnswerMap) (i : Nat) (q : Json)
    (res : QResult) (h : gradeQuestion m i q = some res) :
    ∃ correct expl,
      res = ⟨(amGet m i).getD "" == correct, (amGet m i).getD "",
        correct, expl⟩ := by
  cases q with
  | obj kvs =>
    simp only [gradeQuestion] at h
    cases hA : jLookup kvs "answer" with
    | none =>
      rw [hA] at h
      cases hE : pyStr ((jLookup kvs "explanation").getD
          (Json.str "No explanation provided.")) with
      | none => rw [hE] at h; simp at h
      | some e =>
        rw [hE] at h
        simp at h
        exact ⟨pyUpper (pyStrip ""), e, h.symm⟩
    | some v =>
      rw [hA] at h
      cases v with
      | str s =>
        cases hE : pyStr ((jLookup kvs "explanation").getD
            (Json.str "No explanation provided.")) with
        | none => rw [hE] at h; simp at h
        | some e =>
          rw [hE] at h
          simp at h
          exact ⟨pyUpper (pyStrip s), e, h.symm⟩
      | null => simp at h
      | bool b => simp at h
      | num n => simp at h
      | arr xs => simp at h
      | obj kvs2 => simp at h
  | null => simp [gradeQuestion] at h
  | bool b => simp [gradeQuestion] at h
  | num n => simp [gradeQuestion] at h
  | str s => simp [gradeQuestion] at h
  | arr xs => simp [gradeQuestion] at h

theorem gradeQuestion_fields (m : AnswerMap) (i : Nat) (q : Json)
    (res : QResult) (h : gradeQuestion m i q = some res) :
    res.userAns = (amGet m i).getD "" ∧
      (res.isCorrect = true ↔ (amGet m i).getD "" = res.correctAns) := by
  obtain ⟨c, e, rfl⟩ := gradeQuestion_eq_some m i q res h
  exact ⟨rfl, by simp⟩

theorem gradeAll_length (m : AnswerMap) (i : Nat) (qs : List Json)
    (rs : List QResult) (h : gradeAll m i qs = some rs) :
    rs.length = qs.length := by
  induction qs generalizing i rs with
  | nil =>
    simp [gradeAll] at h
    simp [← h]
  | cons q qs ih =>
    simp only [gradeAll] at h
    cases hq : gradeQuestion m i q with
    | none => rw [hq] at h; simp at h
    | some r =>
      rw [hq] at h
      cases hr : gradeAll m (i + 1) qs with
      | none => rw [hr] at h; simp at h
      | some rs2 =>
        rw [hr] at h
        simp at h
        rw [← h]
        simp [ih (i + 1) rs2 hr]

theorem gradeAll_idx (m : AnswerMap) (i : Nat) (qs : List Json)
    (rs : List QResult) (h : gradeAll m i qs = some rs) (k : Nat) :
    rs[k]? = (qs[k]?).bind (fun q => gradeQuestion m (i + k) q) := by
  induction qs generalizing i rs k with
  | nil =>
    simp [gradeAll] at h
    subst h
    simp
  | cons q qs ih =>
    simp only [gradeAll] at h
    cases hq : gradeQuestion m i q with
    | none => rw [hq] at h; simp at h
    | some r =>
      rw [hq] at h
      cases hr : gradeAll m (i + 1) qs with
      | none => rw [hr] at h; simp at h
      | some rs2 =>
        rw [hr] at h
        simp at h
        rw [← h]
        cases k with
        | zero => simpa using hq.symm
        | succ k =>
          have harith : i + 1 + k = i + (k + 1) := by omega
          have := ih (i + 1) rs2 hr k
          rw [harith] at this
          simpa using this

/-- C1 (amended): the grading loop marks question `i` correct iff the
recorded answer for `i` — defaulting to the empty string when no answer is
present — equals the question's correct label exactly (the correct label
being the `answer` field trimmed and upper-cased, defaulting to the empty
string when absent).  Hence an unanswered question is counted incorrect
except when the correct label itself is empty, and grading never raises an
error for it; the score is the count of correct questions, and the total is
the number of questions. -/
theorem grade_correct_iff_default_empty (qs : List Json) (m : AnswerMap)
    (r : ScoreReport) (h : grade qs m = some r) :
    r.total = qs.length ∧
      r.perQuestion.length = qs.length ∧
      r.score = (r.perQuestion.filter (fun x => x.isCorrect)).length ∧
      (∀ k, r.perQuestion[k]? = (qs[k]?).bind (fun q => gradeQuestion m k q)) ∧
      (∀ k res, r.perQuestion[k]? = some res →
        res.userAns = (amGet m k).getD "" ∧
        (res.isCorrect = true ↔ (amGet m k).getD "" = res.correctAns)) := by
  unfold grade at h
  cases hg : gradeAll m 0 qs with
  | none => rw [hg] at h; simp at h
  | some rs =>
    rw [hg] at h
    simp at h
    rw [← h]
    refine ⟨rfl, gradeAll_length m 0 qs rs hg, rfl, ?_, ?_⟩
    · intro k
      have := gradeAll_idx m 0 qs rs hg k
      simpa using this
    · intro k res hres
      have hidx := gradeAll_idx m 0 qs rs hg k
      rw [hres] at hidx
      cases hq : qs[k]? with
      | none => rw [hq] at hidx; simp at hidx
      | some q =>
        rw [hq] at hidx
        simp at hidx
        exact gradeQuestion_fields m k q res (by simpa using hidx.symm)

/-- C1 witness: concrete instance of `grade_correct_iff_default_empty` on a
one-question quiz with answer "b" and recorded answer "B". -/
theorem grade_correct_iff_default_empty_witness :
    (⟨[⟨true, "B", "B", "e"⟩], 1, 1⟩ : ScoreReport).total = 1 ∧
      (⟨[⟨true, "B", "B", "e"⟩], 1, 1⟩ : ScoreReport).perQuestion.length = 1 := by
  have h := grade_correct_iff_default_empty
    [mkQ "q" ["w", "x", "y", "z"] "b" "e"] [(0, "B")]
    ⟨[⟨true, "B", "B", "e"⟩], 1, 1⟩ rfl
  exact ⟨h.1, h.2.1⟩

/-- C1 counterexample: a question whose `answer` field is absent has correct
label `""`; with no recorded answer for index 0 (`amGet` is `none`), the
user answer defaults to `""` as well and the question is marked correct,
scoring 1 of 1 — an unanswered question counted correct, contradicting the
claim that a question is correct only if an answer is present. -/
theorem grade_unanswered_scores_with_empty_label :
    grade [Json.obj []] []
        = some ⟨[⟨true, "", "", "No explanation provided."⟩], 1, 1⟩ ∧
      amGet [] 0 = none :=
  ⟨rfl, rfl⟩

/-- C8 (amended): the reported explanation is never absent — when the
question object carries no `explanation` field it defaults to the fixed
string "No explanation provided.", not to the empty string. -/
theorem explanation_defaults_to_fixed_message (m : AnswerMap) (i : Nat)
    (kvs : List (String × Json)) (res : QResult)
    (h : jLookup kvs "explanation" = none)
    (hres : gradeQuestion m i (Json.obj kvs) = some res) :
    res.explanation = "No explanation provided." := by
  simp only [gradeQuestion, h] at hres
  cases hA : jLookup kvs "answer" with
  | none =>
    rw [hA] at hres
    simp [pyStr] at hres
    rw [← hres]
  | some v =>
    rw [hA] at hres
    cases v with
    | str s =>
      simp [pyStr] at hres
      rw [← hres]
    | null => simp at hres
    | bool b => simp at hres
    | num n => simp at hres
    | arr xs => simp at hres
    | obj kvs2 => simp at hres

/-- C8 witness: concrete instance of `explanation_defaults_to_fixed_message`
on a question object with an `answer` field but no `explanation` field. -/
theorem explanation_defaults_to_fixed_message_witness :
    jLookup [("answer", Json.str "A")] "explanation" = none ∧
      (⟨false, "", "A", "No explanation provided."⟩ : QResult).explanation
        = "No explanation provided." :=
  ⟨rfl, explanation_defaults_to_fixed_message [] 0 [("answer", Json.str "A")]
    ⟨false, "", "A", "No explanation provided."⟩ rfl rfl⟩

/-- C8 counterexample: grading a question without an `explanation` field
reports the fixed string "No explanation provided.", which is not the empty
string the claim says the explanation defaults to. -/
theorem explanation_default_not_empty :
    gradeQuestion [] 0 (Json.obj [("question", Json.str "q"),
        ("answer", Json.str "A")])
      = some ⟨false, "", "A", "No explanation provided."⟩ ∧
      ("No explanation provided." : String) ≠ "" :=
  ⟨rfl, by decide⟩

/-! Helper lemmas about first/last character indices and the regex span. -/

theorem mem_of_idx {α : Type} (l : List α) (k : Nat) (c : α)
    (h : l[k]? = some c) : c ∈ l := by
  induction l generalizing k with
  | nil => simp at h
  | cons d cs ih =>
    cases k with
    | zero =>
      simp at h
      simp [h]
    | succ k =>
      simp at h
      exact List.mem_cons_of_mem d (ih k h)

theorem idxOfFirst_mem (p : Char → Bool) (l : List Char) (i : Nat)
    (h : idxOfFirst p l = some i) : ∃ c, l[i]? = some c ∧ p c = true := by
  induction l generalizing i with
  | nil => simp [idxOfFirst] at h
  | cons d cs ih =>
    rcases hd : p d with _ | _
    · simp [idxOfFirst, hd] at h
      obtain ⟨i2, h2, hi⟩ := h
      obtain ⟨c, hc, hp⟩ := ih i2 h2
      refine ⟨c, ?_, hp⟩
      rw [← hi]
      simpa using hc
    · simp [idxOfFirst, hd] at h
      exact ⟨d, by simp [← h], hd⟩

theorem idxOfFirst_min (p : Char → Bool) (l : List Char) (i : Nat)
    (h : idxOfFirst p l = some i) :
    ∀ k c, k < i → l[k]? = some c → p c = false := by
  induction l generalizing i with
  | nil => simp [idxOfFirst] at h
  | cons d cs ih =>
    rcases hd : p d with _ | _
    · simp [idxOfFirst, hd] at h
      obtain ⟨i2, h2, hi⟩ := h
      intro k c hk hkc
      cases k with
      | zero =>
        simp at hkc
        rw [← hkc]
        exact hd
      | succ k =>
        simp at hkc
        exact ih i2 h2 k c (by omega) hkc
    · simp [idxOfFirst, hd] at h
      intro k c hk hkc
      exact absurd (by omega : k < 0) (Nat.not_lt_zero k)

theorem idxOfFirst_le_of_mem (p : Char → Bool) (l : List Char) (i : Nat)
    (c : Char) (hc : l[i]? = some c) (hp : p c = true) :
    ∃ i0, idxOfFirst p l = some i0 ∧ i0 ≤ i := by
  induction l generalizing i with
  | nil => simp at hc
  | cons d cs ih =>
    rcases hd : p d with _ | _
    · cases i with
      | zero =>
        simp at hc
        rw [← hc] at hp
        rw [hd] at hp
        cases hp
      | succ i =>
        simp at hc
        obtain ⟨i0, h0, hle⟩ := ih i hc
        refine ⟨i0 + 1, ?_, by omega⟩
        simp [idxOfFirst, hd, h0]
    · exact ⟨0, by simp [idxOfFirst, hd], Nat.zero_le i⟩

theorem idxOfLast_eq_none_iff (p : Char → Bool) (l : List Char) :
    idxOfLast p l = none ↔ ∀ c ∈ l, p c = false := by
  induction l with
  | nil => simp [idxOfLast]
  | cons d cs ih =>
    cases hcs : idxOfLast p cs with
    | some j2 =>
      simp only [idxOfLast, hcs]
      refine ⟨fun h => (by cases h), fun h => ?_⟩
      have hnone : idxOfLast p cs = none :=
        ih.mpr (fun c hc => h c (List.mem_cons_of_mem d hc))
      rw [hcs] at hnone
      cases hnone
    | none =>
      rcases hd : p d with _ | _
      · simp only [idxOfLast, hcs, hd]
        refine ⟨fun _ => ?_, fun _ => rfl⟩
        intro c hc
        rcases List.mem_cons.mp hc with hcd | hcs2
        · rw [hcd]
          exact hd
        · exact ih.mp hcs c hcs2
      · simp only [idxOfLast, hcs, hd]
        refine ⟨fun h => (by cases h), fun h => ?_⟩
        have := h d (List.mem_cons_self d cs)
        rw [hd] at this
        cases this

theorem idxOfLast_mem (p : Char → Bool) (l : List Char) (j : Nat)
    (h : idxOfLast p l = some j) : ∃ c, l[j]? = some c ∧ p c = true := by
  induction l generalizing j with
  | nil => simp [idxOfLast] at h
  | cons d cs ih =>
    cases hcs : idxOfLast p cs with
    | some j2 =>
      simp [idxOfLast, hcs] at h
      obtain ⟨c, hc, hp⟩ := ih j2 hcs
      refine ⟨c, ?_, hp⟩
      rw [← h]
      simpa using hc
    | none =>
      rcases hd : p d with _ | _
      · simp [idxOfLast, hcs, hd] at h
      · simp [idxOfLast, hcs, hd] at h
        exact ⟨d, by simp [← h], hd⟩

theorem idxOfLast_max (p : Char → Bool) (l : List Char) (j : Nat)
    (h : idxOfLast p l = some j) :
    ∀ k c, j < k → l[k]? = some c → p c = false := by
  induction l generalizing j with
  | nil => simp [idxOfLast] at h
  | cons d cs ih =>
    cases hcs : idxOfLast p cs with
    | some j2 =>
      simp [idxOfLast, hcs] at h
      intro k c hk hkc
      cases k with
      | zero => omega
      | succ k =>
        simp at hkc
        exact ih j2 hcs k c (by omega) hkc
    | none =>
      rcases hd : p d with _ | _
      · simp [idxOfLast, hcs, hd] at h
      · simp [idxOfLast, hcs, hd] at h
        intro k c hk hkc
        cases k with
        | zero => omega
        | succ k =>
          simp at hkc
          exact (idxOfLast_eq_none_iff p cs).mp hcs c (mem_of_idx cs k c hkc)

theorem idxOfLast_ge_of_mem (p : Char → Bool) (l : List Char) (j : Nat)
    (c : Char) (hc : l[j]? = some c) (hp : p c = true) :
    ∃ j0, idxOfLast p l = some j0 ∧ j ≤ j0 := by
  induction l generalizing j with
  | nil => simp at hc
  | cons d cs ih =>
    cases hcs : idxOfLast p cs with
    | some j2 =>
      refine ⟨j2 + 1, by simp [idxOfLast, hcs], ?_⟩
      cases j with
      | zero => omega
      | succ j =>
        simp at hc
        obtain ⟨j0, h0, hle⟩ := ih j hc
        rw [hcs] at h0
        have : j2 = j0 := by
          injection h0
        omega
    | none =>
      cases j with
      | zero =>
        simp at hc
        rw [← hc] at hp
        exact ⟨0, by simp [idxOfLast, hcs, hp], Nat.le_refl 0⟩
      | succ j =>
        simp at hc
        obtain ⟨j0, h0, _⟩ := ih j hc
        rw [hcs] at h0
        cases h0


theorem braceSpan_none_iff (raw : List Char) :
    braceSpan raw = none ↔
      ∀ i j : Nat, i < j → raw[i]? = some '{' → ¬ raw[j]? = some '}' := by
  constructor
  · intro hnone i j hij hi hj
    obtain ⟨i0, hfirst, hi0⟩ :=
      idxOfFirst_le_of_mem (fun c => c == '{') raw i '{' hi (by simp)
    obtain ⟨j0, hlast, hj0⟩ :=
      idxOfLast_ge_of_mem (fun c => c == '}') raw j '}' hj (by simp)
    simp only [braceSpan, hfirst, hlast] at hnone
    rw [if_pos (by omega : i0 < j0)] at hnone
    cases hnone
  · intro hno
    cases hf : idxOfFirst (fun c => c == '{') raw with
    | none => simp [braceSpan, hf]
    | some i0 =>
      cases hl : idxOfLast (fun c => c == '}') raw with
      | none => simp [braceSpan, hf, hl]
      | some j0 =>
        by_cases hij : i0 < j0
        · obtain ⟨c1, hc1, hp1⟩ := idxOfFirst_mem _ raw i0 hf
          obtain ⟨c2, hc2, hp2⟩ := idxOfLast_mem _ raw j0 hl
          have e1 : c1 = '{' := by simpa using hp1
          have e2 : c2 = '}' := by simpa using hp2
          rw [e1] at hc1
          rw [e2] at hc2
          exact absurd hc2 (hno i0 j0 hij hc1)
        · simp [braceSpan, hf, hl, hij]

/-- C4: the quiz-JSON stage extracts the greedy regex span — running from
the first brace-opening character to the last brace-closing character of the
raw text whenever the first precedes the last (no bracket balancing) — and
hands it to the JSON parser; when no such span exists the stage stops at the
`noJsonFound` error site, and when the span is not valid JSON
(`jp span = none`) it stops at the `malformedJson` error site. -/
theorem brace_span_extraction_spec (jp : List Char → Option Json)
    (raw : List Char) :
    (braceSpan raw = none →
        djQuestions jp raw = Except.error JErr.noJsonFound) ∧
      (braceSpan raw = none ↔
        ∀ i j : Nat, i < j → raw[i]? = some '{' → ¬ raw[j]? = some '}') ∧
      (∀ i j : Nat, idxOfFirst (fun c => c == '{') raw = some i →
        idxOfLast (fun c => c == '}') raw = some j → i < j →
        braceSpan raw = some ((raw.drop i).take (j - i + 1)) ∧
        raw[i]? = some '{' ∧
        (∀ k c, k < i → raw[k]? = some c → c ≠ '{') ∧
        raw[j]? = some '}' ∧
        (∀ k c, j < k → raw[k]? = some c → c ≠ '}')) ∧
      (∀ span, braceSpan raw = some span → jp span = none →
        djQuestions jp raw = Except.error JErr.malformedJson) := by
  refine ⟨?_, braceSpan_none_iff raw, ?_, ?_⟩
  · intro h
    simp [djQuestions, h]
  · intro i j hf hl hij
    refine ⟨by simp [braceSpan, hf, hl, hij], ?_, ?_, ?_, ?_⟩
    · obtain ⟨c, hc, hp⟩ := idxOfFirst_mem _ raw i hf
      have e : c = '{' := by simpa using hp
      rw [← e]
      exact hc
    · intro k c hk hkc
      have := idxOfFirst_min _ raw i hf k c hk hkc
      intro hcon
      rw [hcon] at this
      simp at this
    · obtain ⟨c, hc, hp⟩ := idxOfLast_mem _ raw j hl
      have e : c = '}' := by simpa using hp
      rw [← e]
      exact hc
    · intro k c hk hkc
      have := idxOfLast_max _ raw j hl k c hk hkc
      intro hcon
      rw [hcon] at this
      simp at this
  · intro span hspan hjp
    simp [djQuestions, hspan, hjp]

/-- C4 witness: concrete instances of `brace_span_extraction_spec` — a text
with no brace span stops at `noJsonFound`, and a text whose span is not
valid JSON (here under a parser that rejects everything) stops at
`malformedJson`. -/
theorem brace_span_extraction_spec_witness :
    djQuestions (fun _ => none) ("ab".toList)
        = Except.error JErr.noJsonFound ∧
      djQuestions (fun _ => none) ("x\x7ba\x7dy".toList)
        = Except.error JErr.malformedJson := by
  constructor
  · exact (brace_span_extraction_spec (fun _ => none) ("ab".toList)).1 rfl
  · exact (brace_span_extraction_spec (fun _ => none)
      ("x\x7ba\x7dy".toList)).2.2.2 ("\x7ba\x7d".toList) rfl rfl

/-! Helper lemmas about choice padding and question rendering. -/

theorem padChoices_getD_str (cs : List String) (k : Nat) (hk : k < 4) :
    (padChoices (cs.map Json.str)).getD k Json.null
      = Json.str (if k < cs.length then cs.getD k "" else "N/A") := by
  unfold padChoices
  by_cases h : k < cs.length
  · rw [if_pos h]
    rw [List.getD_append _ _ _ _ (by simpa using h)]
    rw [List.getD_eq_getElem _ _ (by simpa using h)]
    rw [List.getElem_map Json.str]
    rw [List.getD_eq_getElem cs _ h]
  · rw [if_neg h]
    rw [List.getD_append_right _ _ _ _ (by simpa using Nat.le_of_not_lt h)]
    rw [List.getD_eq_getElem _ _
      (by simp only [List.length_map, List.length_replicate]; omega)]
    rw [List.getElem_replicate]

theorem renderQuestion_mkQ (i : Nat) (qt a e : String) (cs : List String) :
    renderQuestion i (mkQ qt cs a e) = some ⟨qt,
      ["A) " ++ (if 0 < cs.length then cs.getD 0 "" else "N/A"),
       "B) " ++ (if 1 < cs.length then cs.getD 1 "" else "N/A"),
       "C) " ++ (if 2 < cs.length then cs.getD 2 "" else "N/A"),
       "D) " ++ (if 3 < cs.length then cs.getD 3 "" else "N/A")],
      labels⟩ := by
  have e0 : displayOpt (padChoices (cs.map Json.str)) 0
      = some ("A) " ++ (if 0 < cs.length then cs.getD 0 "" else "N/A")) := by
    rw [displayOpt, padChoices_getD_str cs 0 (by omega)]
    rfl
  have e1 : displayOpt (padChoices (cs.map Json.str)) 1
      = some ("B) " ++ (if 1 < cs.length then cs.getD 1 "" else "N/A")) := by
    rw [displayOpt, padChoices_getD_str cs 1 (by omega)]
    rfl
  have e2 : displayOpt (padChoices (cs.map Json.str)) 2
      = some ("C) " ++ (if 2 < cs.length then cs.getD 2 "" else "N/A")) := by
    rw [displayOpt, padChoices_getD_str cs 2 (by omega)]
    rfl
  have e3 : displayOpt (padChoices (cs.map Json.str)) 3
      = some ("D) " ++ (if 3 < cs.length then cs.getD 3 "" else "N/A")) := by
    rw [displayOpt, padChoices_getD_str cs 3 (by omega)]
    rfl
  have hro : renderOpts (padChoices (cs.map Json.str))
      = some ["A) " ++ (if 0 < cs.length then cs.getD 0 "" else "N/A"),
        "B) " ++ (if 1 < cs.length then cs.getD 1 "" else "N/A"),
        "C) " ++ (if 2 < cs.length then cs.getD 2 "" else "N/A"),
        "D) " ++ (if 3 < cs.length then cs.getD 3 "" else "N/A")] := by
    rw [renderOpts, e0, e1, e2, e3]
  calc renderQuestion i (mkQ qt cs a e)
      = (renderOpts (padChoices (cs.map Json.str))).bind
          (fun opts => some (⟨qt, opts, labels⟩ : RenderedQ)) := rfl
    _ = _ := by
      rw [hro]
      rfl

theorem gradeQuestion_mkQ (m : AnswerMap) (i : Nat) (qt a e : String)
    (cs : List String) :
    gradeQuestion m i (mkQ qt cs a e)
      = some ⟨(amGet m i).getD "" == pyUpper (pyStrip a), (amGet m i).getD "",
          pyUpper (pyStrip a), e⟩ := rfl

theorem renderAllFrom_singleton (i : Nat) (q : Json) :
    renderAllFrom i [q] = (renderQuestion i q).bind (fun r => some [r]) := by
  cases hq : renderQuestion i q <;> simp [renderAllFrom, hq]

/-- C5: a question whose choice list has fewer than 4 entries is rendered
without any failure: the missing slots are padded with the fixed placeholder
"N/A", exactly 4 labelled display options are shown, the selectable radio
values are the four labels, and the one-question quiz renders
successfully. -/
theorem short_choices_padded (i : Nat) (qt a e : String) (cs : List String)
    (h : cs.length < 4) :
    ∃ rq, renderQuestion i (mkQ qt cs a e) = some rq ∧
      rq.displayOptions.length = 4 ∧
      rq.radioOptions = labels ∧
      (∀ k : Nat, cs.length ≤ k → k < 4 →
        rq.displayOptions[k]? = some (labels.getD k "" ++ ") N/A")) ∧
      (∃ rqs, (enumList (Json.arr [mkQ qt cs a e])).bind (renderAllFrom 0)
        = some rqs) := by
  refine ⟨_, renderQuestion_mkQ i qt a e cs, rfl, rfl, ?_, ?_⟩
  · intro k hk1 hk2
    interval_cases k
    · show some ("A) " ++ (if 0 < cs.length then cs.getD 0 "" else "N/A"))
        = some (labels.getD 0 "" ++ ") N/A")
      rw [if_neg (by omega)]
      rfl
    · show some ("B) " ++ (if 1 < cs.length then cs.getD 1 "" else "N/A"))
        = some (labels.getD 1 "" ++ ") N/A")
      rw [if_neg (by omega)]
      rfl
    · show some ("C) " ++ (if 2 < cs.length then cs.getD 2 "" else "N/A"))
        = some (labels.getD 2 "" ++ ") N/A")
      rw [if_neg (by omega)]
      rfl
    · show some ("D) " ++ (if 3 < cs.length then cs.getD 3 "" else "N/A"))
        = some (labels.getD 3 "" ++ ") N/A")
      rw [if_neg (by omega)]
      rfl
  · have hall : (enumList (Json.arr [mkQ qt cs a e])).bind (renderAllFrom 0)
        = renderAllFrom 0 [mkQ qt cs a e] := rfl
    rw [hall, renderAllFrom_singleton, renderQuestion_mkQ]
    exact ⟨_, rfl⟩

/-- C5 witness: concrete instance of `short_choices_padded` with a
one-element choice list. -/
theorem short_choices_padded_witness :
    ∃ rq, renderQuestion 0 (mkQ "q" ["only"] "A" "e") = some rq ∧
      rq.displayOptions.length = 4 ∧
      rq.radioOptions = labels ∧
      (∀ k : Nat, (["only"] : List String).length ≤ k → k < 4 →
        rq.displayOptions[k]? = some (labels.getD k "" ++ ") N/A")) ∧
      (∃ rqs, (enumList (Json.arr [mkQ "q" ["only"] "A" "e"])).bind
        (renderAllFrom 0) = some rqs) :=
  short_choices_padded 0 "q" "A" "e" ["only"] (by decide)

/-- C10: with more than 4 choices, rendering is identical to rendering the
first 4 choices only (entries beyond index 3 never appear among the 4
labelled display options), the selectable radio values are always exactly
the labels A-D, and grading does not depend on the choice list at all. -/
theorem extra_choices_ignored (i : Nat) (m : AnswerMap) (qt a e : String)
    (cs : List String) (h : cs.length > 4) :
    renderQuestion i (mkQ qt cs a e)
        = renderQuestion i (mkQ qt (cs.take 4) a e) ∧
      (∀ cs2 : List String, gradeQuestion m i (mkQ qt cs a e)
        = gradeQuestion m i (mkQ qt cs2 a e)) ∧
      (∃ rq, renderQuestion i (mkQ qt cs a e) = some rq ∧
        rq.radioOptions = labels ∧ rq.displayOptions.length = 4) := by
  refine ⟨?_, fun cs2 => rfl, ⟨_, renderQuestion_mkQ i qt a e cs, rfl, rfl⟩⟩
  have l4 : (cs.take 4).length = 4 := by
    simp only [List.length_take]
    omega
  have hk : ∀ k : Nat, k < 4 → (cs.take 4).getD k "" = cs.getD k "" := by
    intro k hk4
    rw [List.getD_eq_getElem _ _ (by omega : k < (cs.take 4).length),
      List.getD_eq_getElem _ _ (by omega : k < cs.length), List.getElem_take _]
  have c1 : ∀ k : Nat, k < 4 →
      (if k < (cs.take 4).length then (cs.take 4).getD k "" else "N/A")
        = (if k < cs.length then cs.getD k "" else "N/A") := by
    intro k hk4
    rw [if_pos (by omega : k < (cs.take 4).length),
      if_pos (by omega : k < cs.length), hk k hk4]
  rw [renderQuestion_mkQ, renderQuestion_mkQ, c1 0 (by omega), c1 1 (by omega),
    c1 2 (by omega), c1 3 (by omega)]

/-- C10 witness: concrete instance of `extra_choices_ignored` with a
five-element choice list. -/
theorem extra_choices_ignored_witness :
    renderQuestion 0 (mkQ "q" ["v", "w", "x", "y", "z"] "A" "e")
        = renderQuestion 0 (mkQ "q" (["v", "w", "x", "y", "z"].take 4) "A" "e") ∧
      (∀ cs2 : List String, gradeQuestion [] 0 (mkQ "q" ["v", "w", "x", "y", "z"] "A" "e")
        = gradeQuestion [] 0 (mkQ "q" cs2 "A" "e")) ∧
      (∃ rq, renderQuestion 0 (mkQ "q" ["v", "w", "x", "y", "z"] "A" "e") = some rq ∧
        rq.radioOptions = labels ∧ rq.displayOptions.length = 4) :=
  extra_choices_ignored 0 [] "q" "A" "e" ["v", "w", "x", "y", "z"] (by decide)

/-- C2 (amended): the `answer` field is trimmed and upper-cased before being
used as the correct label, but there is no validation against the derived
labels: whatever the answer normalizes to, the question is rendered and
graded without any failure, and it is marked correct exactly when the
recorded label (default `""`) equals the normalized answer. -/
theorem answer_normalized_no_label_validation (m : AnswerMap) (i : Nat)
    (qt a e : String) (cs : List String) :
    (∃ res, gradeQuestion m i (mkQ qt cs a e) = some res ∧
      res.correctAns = pyUpper (pyStrip a) ∧
      (res.isCorrect = true ↔ (amGet m i).getD "" = pyUpper (pyStrip a))) ∧
      (∃ rq, renderQuestion i (mkQ qt cs a e) = some rq) :=
  ⟨⟨_, gradeQuestion_mkQ m i qt a e cs, rfl, by simp⟩,
    ⟨_, renderQuestion_mkQ i qt a e cs⟩⟩

/-- C2 counterexample: a question whose answer normalizes to "E" — matching
none of the derived labels A-D — is still rendered into a quiz and graded
(the user simply can never hit it); no `AnswerNotInOptions`-style failure
exists in the code. -/
theorem unmatched_answer_still_builds_quiz :
    pyUpper (pyStrip " e ") = "E" ∧
      ("E" : String) ∉ labels ∧
      (enumList (Json.arr [mkQ "q" ["w", "x", "y", "z"] " e " "ex"])).bind
          (renderAllFrom 0)
        = some [⟨"q", ["A) w", "B) x", "C) y", "D) z"], labels⟩] ∧
      grade [mkQ "q" ["w", "x", "y", "z"] " e " "ex"] [(0, "A")]
        = some ⟨[⟨false, "A", "E", "ex"⟩], 0, 1⟩ :=
  ⟨rfl, by decide, rfl, rfl⟩

/-- C3 (amended): after a successful `json.loads`, the code never fails on
schema grounds: a missing `questions` field defaults to the empty array
(producing only the shape warning), the resulting zero-question quiz renders
and grades as 0 of 0, and an element lacking `question`, `choices` or
`answer` is rendered and graded with defaults ("Question i+1", four "N/A"
options, empty correct label, fixed explanation) rather than rejected. -/
theorem missing_schema_fields_tolerated (jp : List Char → Option Json)
    (raw span : List Char) (d : List (String × Json)) (m : AnswerMap) (i : Nat)
    (hspan : braceSpan raw = some span) (hjp : jp span = some (Json.obj d))
    (hq : jLookup d "questions" = none) :
    djQuestions jp raw = Except.ok (Json.arr []) ∧
      warnBadShape (Json.arr []) = true ∧
      runDialectJ jp raw = Except.ok (some []) ∧
      grade [] m = some ⟨[], 0, 0⟩ ∧
      (∃ rq, renderQuestion i (Json.obj []) = some rq ∧
        rq.qText = "Question " ++ toString (i + 1)) ∧
      (∃ res, gradeQuestion m i (Json.obj []) = some res ∧
        res.correctAns = "" ∧
        res.explanation = "No explanation provided.") := by
  have hdj : djQuestions jp raw = Except.ok (Json.arr []) := by
    simp [djQuestions, hspan, hjp, getQuestionsVal, hq]
  refine ⟨hdj, rfl, ?_, rfl, ?_, ?_⟩
  · rw [runDialectJ, hdj]
    rfl
  · exact ⟨⟨"Question " ++ toString (i + 1),
      ["A) N/A", "B) N/A", "C) N/A", "D) N/A"], labels⟩, rfl, rfl⟩
  · exact ⟨⟨(amGet m i).getD "" == "", (amGet m i).getD "", "",
      "No explanation provided."⟩, rfl, rfl, rfl⟩

/-- C3 witness: concrete instance of `missing_schema_fields_tolerated` on
the raw text consisting of an empty JSON object. -/
theorem missing_schema_fields_tolerated_witness :
    runDialectJ
        (fun s => if s == ("\x7b\x7d".toList) then some (Json.obj []) else none)
        ("\x7b\x7d".toList) = Except.ok (some []) ∧
      warnBadShape (Json.arr []) = true := by
  have h := missing_schema_fields_tolerated
    (fun s => if s == ("\x7b\x7d".toList) then some (Json.obj []) else none)
    ("\x7b\x7d".toList) ("\x7b\x7d".toList) [] [] 0 rfl rfl rfl
  exact ⟨h.2.2.1, h.2.1⟩

/-- C3 counterexample: the raw text `"\x7b\x7d"` has a valid-JSON brace span
whose parsed value lacks a `questions` array, yet the pipeline succeeds with
a zero-question quiz instead of failing with any schema violation. -/
theorem missing_questions_parses_ok :
    runDialectJ
        (fun s => if s == ("\x7b\x7d".toList) then some (Json.obj []) else none)
        ("\x7b\x7d".toList) = Except.ok (some []) := rfl

/-- C9: in the Dialect-T parse, a block lacking a question line, an answer
line, or at least one option line is silently dropped (it contributes no
item), and the whole parse fails — with `noQuestionsParsed` — exactly when
the set of surviving items is empty; otherwise it succeeds with exactly the
surviving items. -/
theorem dialectT_drops_malformed_blocks (raw : String) :
    ((splitOnEmpty (splitChar '\n' raw.data)).filterMap parseBlockT = [] ↔
        parseDialectT raw = Except.error TErr.noQuestionsParsed) ∧
      (∀ its, (splitOnEmpty (splitChar '\n' raw.data)).filterMap parseBlockT
          = its → its ≠ [] → parseDialectT raw = Except.ok its) ∧
      (∀ b, (blockLines b).find? (fun l => startsWithL "Q".data l) = none →
        parseBlockT b = none) ∧
      (∀ b, (blockLines b).find? (fun l => startsWithL "Answer".data l)
          = none → parseBlockT b = none) ∧
      (∀ b, (blockLines b).filter
          (fun l => optStarts.any (fun p => startsWithL p l)) = [] →
        parseBlockT b = none) := by
  refine ⟨⟨?_, ?_⟩, ?_, ?_, ?_, ?_⟩
  · intro h
    simp [parseDialectT, h]
  · intro h
    by_cases hempty :
        (splitOnEmpty (splitChar '\n' raw.data)).filterMap parseBlockT = []
    · exact hempty
    · exfalso
      have hfalse :
          ((splitOnEmpty (splitChar '\n' raw.data)).filterMap
            parseBlockT).isEmpty = false := by
        simpa [List.isEmpty_iff] using hempty
      simp only [parseDialectT, hfalse] at h
      cases h
  · intro its hits hne
    have hfalse : its.isEmpty = false := by simpa [List.isEmpty_iff] using hne
    simp only [parseDialectT, hits, hfalse]
    rfl
  · intro b hb
    simp [parseBlockT, hb]
  · intro b hb
    cases hq : ((blockLines b).find? (fun l => startsWithL "Q".data l)).bind
        afterFirstColonL with
    | none => simp [parseBlockT, hb, hq]
    | some qv => simp [parseBlockT, hb, hq]
  · intro b hb
    cases hq : ((blockLines b).find? (fun l => startsWithL "Q".data l)).bind
        afterFirstColonL with
    | none => simp [parseBlockT, hb, hq]
    | some qv =>
      cases ha : ((blockLines b).find?
          (fun l => startsWithL "Answer".data l)).bind afterFirstColonL with
      | none => simp [parseBlockT, hb, hq, ha]
      | some av => simp [parseBlockT, hb, hq, ha]

/-- C9 witness: a text with no well-formed block fails with
`noQuestionsParsed`; a text with one well-formed block and one garbage block
succeeds with exactly the one surviving item. -/
theorem dialectT_drops_malformed_blocks_witness :
    parseDialectT "no quiz here" = Except.error TErr.noQuestionsParsed ∧
      parseDialectT ("Q1: What is 2+2?\nA) 3\nB) 4\nC) 5\nD) 6\nAnswer: B\nExplanation: Basic arithmetic.\n\ngarbage")
        = Except.ok [⟨"What is 2+2?", ["A) 3", "B) 4", "C) 5", "D) 6"], "B",
            "Basic arithmetic."⟩] := by
  constructor
  · exact (dialectT_drops_malformed_blocks "no quiz here").1.mp (by decide)
  · exact (dialectT_drops_malformed_blocks
      ("Q1: What is 2+2?\nA) 3\nB) 4\nC) 5\nD) 6\nAnswer: B\nExplanation: Basic arithmetic.\n\ngarbage")).2.1
      ([⟨"What is 2+2?", ["A) 3", "B) 4", "C) 5", "D) 6"], "B",
        "Basic arithmetic."⟩]) (by decide) (by decide)

end Workflow

